import Mathlib

/-!
Verification of the peer-to-peer encrypted chat protocol layer.

Shallow embedding of the repository's Rust sources:
  * src/app.rs      — chat history / local UI state (`App`, `UiMessage`, …)
  * src/gossip.rs   — ownership & session tracker (`subscribe_loop` body)
  * src/crypto.rs   — per-topic key derivation and ChaCha20-Poly1305 AEAD
  * src/protocol.rs — wire messages and the base-32 join ticket

Modelling conventions:
  * Rust `String` values are modelled as their UTF-8 byte sequences,
    `List Nat` with every element < 256 (a Rust `String` is exactly a
    vector of bytes that is valid UTF-8).
  * `u64` message ids and `EndpointId`s are modelled as `Nat`; only
    equality of ids is ever used by the code.
  * `HashMap` is modelled extensionally as an association list where
    `insert` overwrites and `lookup` returns the most recent binding.
  * Randomness (message nonces, outer envelope nonces) is passed in as an
    explicit argument.
  * External crate primitives that the source calls are implemented
    faithfully from their public specifications: SHA-256 (FIPS 180-4),
    ChaCha20-Poly1305 (RFC 8439), unpadded base-32 (RFC 4648, the
    `data_encoding::BASE32_NOPAD` alphabet), UTF-8 validity (RFC 3629).
-/

set_option maxRecDepth 10000

/-- Bytes of an ASCII string literal; used to model Rust string literals
(for ASCII text the UTF-8 bytes coincide with the code points). -/
def ascii (s : String) : List Nat := s.data.map Char.toNat

-- ── src/app.rs ────────────────────────────────────────────────────────────────

/-- Model of `ChatMessage` (src/app.rs): a single chat message displayed in
the UI. `sender` and `content` are Rust strings, modelled as UTF-8 bytes. -/
structure ChatMessage where
  id : Nat
  sender : List Nat
  content : List Nat
  encrypted : Bool
deriving DecidableEq, Repr

/-- Model of `UiMessage` (src/app.rs): chat entry, system notice, or an
instruction to remove the chat message with a given id. -/
inductive UiMessage where
  | chat (c : ChatMessage)
  | system (text : List Nat)
  | delete (id : Nat)
deriving DecidableEq, Repr

/-- Model of `Mode` (src/app.rs): modal input state of the TUI. -/
inductive Mode where
  | insert
  | normal
deriving DecidableEq, Repr

/-- Model of `App` (src/app.rs): the complete runtime state of the chat UI. -/
structure App where
  input : List Nat
  messages : List UiMessage
  mode : Mode
  my_sent_ids : List Nat
  scroll_offset : Nat
deriving DecidableEq, Repr

/-- Model of `App::new` (src/app.rs). -/
def App.new : App :=
  { input := [], messages := [], mode := Mode.insert, my_sent_ids := [],
    scroll_offset := 0 }

/-- The retain predicate of the `Delete` branch of `App::add_message`:
keep an entry unless it is a `Chat` whose id equals the deleted id. -/
def keepAfterDelete (id : Nat) (m : UiMessage) : Bool :=
  match m with
  | UiMessage.chat c => c.id != id
  | _ => true

/-- Model of `App::add_message` (src/app.rs, lines 155-172).
`Delete(id)`: retain all non-matching entries, drop `id` from
`my_sent_ids`, append the deletion notice, and return. Any other message:
push it, then if the length exceeds 1000 drain the oldest 100. -/
def App.add_message (s : App) (msg : UiMessage) : App :=
  match msg with
  | UiMessage.delete id =>
    { s with
      messages := s.messages.filter (keepAfterDelete id)
                    ++ [UiMessage.system (ascii "A message was deleted.")],
      my_sent_ids := s.my_sent_ids.filter (fun i => i != id) }
  | _ =>
    let ms := s.messages ++ [msg]
    { s with messages := if ms.length > 1000 then ms.drop 100 else ms }

/-- Model of `App::scroll_up` (src/app.rs, lines 187-189):
`scroll_offset = (scroll_offset + n).min(messages.len().saturating_sub(1))`.
Lean's truncated `Nat` subtraction is exactly `saturating_sub`. -/
def App.scroll_up (s : App) (n : Nat) : App :=
  { s with scroll_offset := min (s.scroll_offset + n) (s.messages.length - 1) }

/-- Model of `App::scroll_down` (src/app.rs, lines 205-207):
`scroll_offset = scroll_offset.saturating_sub(n)`. -/
def App.scroll_down (s : App) (n : Nat) : App :=
  { s with scroll_offset := s.scroll_offset - n }

/-- An event is a deletion instruction. -/
def UiMessage.isDelete (m : UiMessage) : Bool :=
  match m with
  | UiMessage.delete _ => true
  | _ => false

/-- Folding a sequence of events into the app state, in order. -/
def App.addAll (s : App) (evs : List UiMessage) : App :=
  evs.foldl App.add_message s

-- ── 32-bit word helpers (crypto primitives work modulo 2^32) ──────────────────

/-- Addition modulo 2^32. -/
def add32 (a b : Nat) : Nat := (a + b) % 4294967296

/-- Bitwise xor (on bytes and words; xor of two values < 2^k stays < 2^k). -/
def xorN (a b : Nat) : Nat := a ^^^ b

/-- Left rotation of a 32-bit word by `n` (0 < n < 32). -/
def rotl32 (x n : Nat) : Nat :=
  (((x % 4294967296) <<< n) % 4294967296) ||| ((x % 4294967296) >>> (32 - n))

/-- Right rotation of a 32-bit word by `n` (0 < n < 32). -/
def rotr32 (x n : Nat) : Nat :=
  ((x % 4294967296) >>> n) ||| (((x % 4294967296) <<< (32 - n)) % 4294967296)

/-- Split a list into consecutive chunks of `n` elements (last may be short). -/
def chunksOf (n : Nat) (l : List Nat) : List (List Nat) :=
  if h : n = 0 ∨ l.length = 0 then []
  else l.take n :: chunksOf n (l.drop n)
termination_by l.length
decreasing_by
  push_neg at h
  simp only [List.length_drop]
  omega

/-- Little-endian value of a byte list. -/
def leNum (l : List Nat) : Nat := l.foldr (fun b acc => b + 256 * acc) 0

/-- `len` little-endian bytes of `n`. -/
def leBytes (len n : Nat) : List Nat :=
  (List.range len).map (fun i => n >>> (8 * i) % 256)

/-- Big-endian 32-bit word from 4 bytes of `l` starting at position `4*i`. -/
def beWordAt (l : List Nat) (i : Nat) : Nat :=
  l.getD (4 * i) 0 * 16777216 + l.getD (4 * i + 1) 0 * 65536 +
  l.getD (4 * i + 2) 0 * 256 + l.getD (4 * i + 3) 0

/-- Little-endian 32-bit word from 4 bytes of `l` starting at position `4*i`. -/
def leWordAt (l : List Nat) (i : Nat) : Nat :=
  l.getD (4 * i) 0 + l.getD (4 * i + 1) 0 * 256 +
  l.getD (4 * i + 2) 0 * 65536 + l.getD (4 * i + 3) 0 * 16777216

-- ── SHA-256 (FIPS 180-4), the hash used by `get_encryption_key` ───────────────

/-- The 64 SHA-256 round constants (FIPS 180-4 section 4.2.2, written in
decimal). -/
def sha256K : List Nat :=
  [1116352408, 1899447441, 3049323471, 3921009573,
   961987163, 1508970993, 2453635748, 2870763221,
   3624381080, 310598401, 607225278, 1426881987,
   1925078388, 2162078206, 2614888103, 3248222580,
   3835390401, 4022224774, 264347078, 604807628,
   770255983, 1249150122, 1555081692, 1996064986,
   2554220882, 2821834349, 2952996808, 3210313671,
   3336571891, 3584528711, 113926993, 338241895,
   666307205, 773529912, 1294757372, 1396182291,
   1695183700, 1986661051, 2177026350, 2456956037,
   2730485921, 2820302411, 3259730800, 3345764771,
   3516065817, 3600352804, 4094571909, 275423344,
   430227734, 506948616, 659060556, 883997877,
   958139571, 1322822218, 1537002063, 1747873779,
   1955562222, 2024104815, 2227730452, 2361852424,
   2428436474, 2756734187, 3204031479, 3329325298]

/-- The SHA-256 initial hash value (FIPS 180-4 section 5.3.3, decimal). -/
def sha256H0 : List Nat :=
  [1779033703, 3144134277, 1013904242, 2773480762,
   1359893119, 2600822924, 528734635, 1541459225]

/-- SHA-256 small sigma 0. -/
def ssig0 (x : Nat) : Nat := xorN (xorN (rotr32 x 7) (rotr32 x 18)) (x >>> 3)

/-- SHA-256 small sigma 1. -/
def ssig1 (x : Nat) : Nat := xorN (xorN (rotr32 x 17) (rotr32 x 19)) (x >>> 10)

/-- SHA-256 big sigma 0. -/
def bsig0 (x : Nat) : Nat := xorN (xorN (rotr32 x 2) (rotr32 x 13)) (rotr32 x 22)

/-- SHA-256 big sigma 1. -/
def bsig1 (x : Nat) : Nat := xorN (xorN (rotr32 x 6) (rotr32 x 11)) (rotr32 x 25)

/-- SHA-256 choice function. -/
def chFn (x y z : Nat) : Nat := xorN (x &&& y) ((4294967295 - x % 4294967296) &&& z)

/-- SHA-256 majority function. -/
def majFn (x y z : Nat) : Nat := xorN (xorN (x &&& y) (x &&& z)) (y &&& z)

/-- SHA-256 message padding: append 0x80, zeros to 56 mod 64, then the
bit length as 8 big-endian bytes. -/
def sha256Pad (msg : List Nat) : List Nat :=
  msg ++ [0x80] ++ List.replicate ((119 - msg.length % 64) % 64) 0 ++
  (List.range 8).map (fun i => (msg.length * 8) >>> (8 * (7 - i)) % 256)

/-- SHA-256 message schedule: the 64 words W for one 64-byte block. -/
def sha256Schedule (block : List Nat) : List Nat :=
  (List.range 48).foldl
    (fun w _ =>
      w ++ [(ssig1 (w.getD (w.length - 2) 0) + w.getD (w.length - 7) 0 +
             ssig0 (w.getD (w.length - 15) 0) + w.getD (w.length - 16) 0) %
            4294967296])
    ((List.range 16).map (beWordAt block))

/-- One round of the SHA-256 compression loop on the 8-word working state. -/
def sha256Round (st : List Nat) (wk : Nat × Nat) : List Nat :=
  let a := st.getD 0 0
  let b := st.getD 1 0
  let c := st.getD 2 0
  let d := st.getD 3 0
  let e := st.getD 4 0
  let f := st.getD 5 0
  let g := st.getD 6 0
  let h := st.getD 7 0
  let t1 := (h + bsig1 e + chFn e f g + wk.2 + wk.1) % 4294967296
  let t2 := (bsig0 a + majFn a b c) % 4294967296
  [(t1 + t2) % 4294967296, a, b, c, (d + t1) % 4294967296, e, f, g]

/-- SHA-256 compression of one block into the running hash value. -/
def sha256Compress (hv : List Nat) (block : List Nat) : List Nat :=
  let ws := sha256Schedule block
  let st := (ws.zip sha256K).foldl sha256Round hv
  List.zipWith add32 hv st

/-- SHA-256 of a byte sequence, as 32 bytes (big-endian words). -/
def sha256 (msg : List Nat) : List Nat :=
  let hv := (chunksOf 64 (sha256Pad msg)).foldl sha256Compress sha256H0
  hv.flatMap (fun w => [w >>> 24 % 256, w >>> 16 % 256, w >>> 8 % 256, w % 256])

-- ── ChaCha20 block function (RFC 8439 section 2.3) ────────────────────────────

/-- One ChaCha20 quarter round, acting on positions `ia ib ic id` of the
16-word state. -/
def chachaQR (s : List Nat) (ia ib ic id : Nat) : List Nat :=
  let a0 := add32 (s.getD ia 0) (s.getD ib 0)
  let d0 := rotl32 (xorN (s.getD id 0) a0) 16
  let c0 := add32 (s.getD ic 0) d0
  let b0 := rotl32 (xorN (s.getD ib 0) c0) 12
  let a1 := add32 a0 b0
  let d1 := rotl32 (xorN d0 a1) 8
  let c1 := add32 c0 d1
  let b1 := rotl32 (xorN b0 c1) 7
  (((s.set ia a1).set ib b1).set ic c1).set id d1

/-- One ChaCha20 double round: four column rounds then four diagonal rounds. -/
def chachaDoubleRound (s : List Nat) : List Nat :=
  let s1 := chachaQR s 0 4 8 12
  let s2 := chachaQR s1 1 5 9 13
  let s3 := chachaQR s2 2 6 10 14
  let s4 := chachaQR s3 3 7 11 15
  let s5 := chachaQR s4 0 5 10 15
  let s6 := chachaQR s5 1 6 11 12
  let s7 := chachaQR s6 2 7 8 13
  chachaQR s7 3 4 9 14

/-- The initial ChaCha20 state: constants, 8 key words, counter, 3 nonce
words (all little-endian). -/
def chachaInit (key : List Nat) (counter : Nat) (nonce : List Nat) : List Nat :=
  [0x61707865, 0x3320646e, 0x79622d32, 0x6b206574] ++
  (List.range 8).map (leWordAt key) ++
  [counter % 4294967296] ++ (List.range 3).map (leWordAt nonce)

/-- The ChaCha20 block function: 10 double rounds, add the initial state,
serialize the 16 words little-endian into 64 bytes. -/
def chachaBlock (key : List Nat) (counter : Nat) (nonce : List Nat) : List Nat :=
  let st0 := chachaInit key counter nonce
  let st := (List.range 10).foldl (fun s _ => chachaDoubleRound s) st0
  (List.zipWith add32 st st0).flatMap
    (fun w => [w % 256, w >>> 8 % 256, w >>> 16 % 256, w >>> 24 % 256])

/-- Byte `i` of the ChaCha20 keystream used for encryption (block counter
starts at 1, per the RFC 8439 AEAD construction). -/
def chachaKeystream (key nonce : List Nat) (len : Nat) : List Nat :=
  (List.range len).map (fun i => (chachaBlock key (1 + i / 64) nonce).getD (i % 64) 0)

-- ── Poly1305 one-time authenticator (RFC 8439 section 2.5) ────────────────────

/-- Clamping of the Poly1305 `r` part of the key. -/
def clampR (r : Nat) : Nat := r &&& 0x0ffffffc0ffffffc0ffffffc0fffffff

/-- Poly1305 MAC of `msg` under the 32-byte one-time `key`, as 16 bytes. -/
def poly1305 (key msg : List Nat) : List Nat :=
  let r := clampR (leNum (key.take 16))
  let s := leNum (key.drop 16)
  let p : Nat := 2 ^ 130 - 5
  let acc := (chunksOf 16 msg).foldl
    (fun acc chunk => ((acc + leNum chunk + 2 ^ (8 * chunk.length)) * r) % p) 0
  leBytes 16 ((acc + s) % 2 ^ 128)

-- ── ChaCha20-Poly1305 AEAD (RFC 8439 section 2.8, empty AAD) ──────────────────

/-- Zero padding to the next 16-byte boundary. -/
def pad16 (l : List Nat) : List Nat := List.replicate ((16 - l.length % 16) % 16) 0

/-- The authenticated data fed to Poly1305 by the AEAD construction; the
source always encrypts with empty associated data, so only the ciphertext,
its padding, and the two length words appear. -/
def aeadMacData (ct : List Nat) : List Nat :=
  ct ++ pad16 ct ++ leBytes 8 0 ++ leBytes 8 ct.length

/-- The AEAD tag: Poly1305 under the one-time key taken from ChaCha20
block 0. -/
def aeadTag (key nonce ct : List Nat) : List Nat :=
  poly1305 ((chachaBlock key 0 nonce).take 32) (aeadMacData ct)

/-- AEAD encryption: xor with the keystream, append the 16-byte tag.
This is what `ChaCha20Poly1305::encrypt` returns. -/
def aeadEncrypt (key nonce pt : List Nat) : List Nat :=
  let ct := List.zipWith xorN pt (chachaKeystream key nonce pt.length)
  ct ++ aeadTag key nonce ct

/-- AEAD decryption: split off the trailing 16-byte tag, verify it, then
xor the ciphertext with the keystream. `none` models `aead::Error`. -/
def aeadDecrypt (key nonce data : List Nat) : Option (List Nat) :=
  if data.length < 16 then none
  else
    let ct := data.take (data.length - 16)
    let tag := data.drop (data.length - 16)
    if aeadTag key nonce ct = tag then
      some (List.zipWith xorN ct (chachaKeystream key nonce ct.length))
    else none

-- ── UTF-8 validity (RFC 3629), modelling `String::from_utf8` ──────────────────

/-- A UTF-8 continuation byte. -/
def utf8Cont (c : Nat) : Bool := 128 ≤ c && c ≤ 191

/-- Validity of a byte sequence as UTF-8, exactly the shortest-form,
surrogate-free check performed by `String::from_utf8`. -/
def utf8Valid : List Nat → Bool
  | [] => true
  | b :: rest =>
    if b ≤ 127 then utf8Valid rest
    else if 194 ≤ b && b ≤ 223 then
      match rest with
      | c1 :: r => utf8Cont c1 && utf8Valid r
      | [] => false
    else if b == 224 then
      match rest with
      | c1 :: c2 :: r => (160 ≤ c1 && c1 ≤ 191) && utf8Cont c2 && utf8Valid r
      | _ => false
    else if (225 ≤ b && b ≤ 236) || b == 238 || b == 239 then
      match rest with
      | c1 :: c2 :: r => utf8Cont c1 && utf8Cont c2 && utf8Valid r
      | _ => false
    else if b == 237 then
      match rest with
      | c1 :: c2 :: r => (128 ≤ c1 && c1 ≤ 159) && utf8Cont c2 && utf8Valid r
      | _ => false
    else if b == 240 then
      match rest with
      | c1 :: c2 :: c3 :: r =>
        (144 ≤ c1 && c1 ≤ 191) && utf8Cont c2 && utf8Cont c3 && utf8Valid r
      | _ => false
    else if 241 ≤ b && b ≤ 243 then
      match rest with
      | c1 :: c2 :: c3 :: r =>
        utf8Cont c1 && utf8Cont c2 && utf8Cont c3 && utf8Valid r
      | _ => false
    else if b == 244 then
      match rest with
      | c1 :: c2 :: c3 :: r =>
        (128 ≤ c1 && c1 ≤ 143) && utf8Cont c2 && utf8Cont c3 && utf8Valid r
      | _ => false
    else false

-- ── src/protocol.rs: wire messages ────────────────────────────────────────────

/-- Model of `MessageBody` (src/protocol.rs). `from` is a Lean keyword, so
the field is named `from_`. -/
inductive MessageBody where
  | aboutMe (from_ : Nat) (name : List Nat)
  | encryptedMessage (from_ : Nat) (id : Nat) (ciphertext : List Nat)
      (nonce : List Nat)
  | deleteMessage (from_ : Nat) (id : Nat)
deriving DecidableEq, Repr

/-- Model of `Message` (src/protocol.rs): a body plus the outer 16-byte
random nonce. -/
structure Message where
  body : MessageBody
  nonce : List Nat
deriving DecidableEq, Repr

-- ── src/crypto.rs ─────────────────────────────────────────────────────────────

/-- Model of `get_encryption_key` (src/crypto.rs, lines 27-31): the SHA-256
hash of the raw topic bytes, used directly as the symmetric key. -/
def get_encryption_key (topic : List Nat) : List Nat := sha256 topic

/-- Model of `encrypt_message` (src/crypto.rs, lines 57-75). The fresh
random 96-bit AEAD nonce and the outer 16-byte envelope nonce are passed
explicitly (`OsRng` / `rand::random` in the source). -/
def encrypt_message (text : List Nat) (from_ : Nat) (topic : List Nat)
    (id : Nat) (nonce12 : List Nat) (outerNonce : List Nat) : Message :=
  { body := MessageBody.encryptedMessage from_ id
      (aeadEncrypt (get_encryption_key topic) nonce12 text) nonce12,
    nonce := outerNonce }

/-- Model of `decrypt_message` (src/crypto.rs, lines 97-107): authenticated
decryption followed by the UTF-8 check of `String::from_utf8`. Error
payloads model the formatted `anyhow` messages; their exact text is not
load-bearing for any claim. -/
def decrypt_message (ciphertext : List Nat) (nonce : List Nat)
    (topic : List Nat) : Except (List Nat) (List Nat) :=
  match aeadDecrypt (get_encryption_key topic) nonce ciphertext with
  | none => Except.error (ascii "Decryption failed: aead::Error")
  | some pt =>
    if utf8Valid pt then Except.ok pt
    else Except.error (ascii "invalid utf-8 sequence")

-- ── src/gossip.rs: ownership & session tracker ────────────────────────────────

/-- Extensional model of `HashMap::insert`: bind `k` to `v`, overwriting
any previous binding. -/
def mapInsert (m : List (Nat × α)) (k : Nat) (v : α) : List (Nat × α) :=
  (k, v) :: m.filter (fun p => p.1 != k)

/-- Extensional model of `HashMap::remove` (the returned old value is
never used by the source). -/
def mapRemove (m : List (Nat × α)) (k : Nat) : List (Nat × α) :=
  m.filter (fun p => p.1 != k)

/-- Extensional model of `HashMap::get`. -/
def mapGet (m : List (Nat × α)) (k : Nat) : Option α :=
  (m.find? (fun p => p.1 == k)).map (fun p => p.2)

/-- The mutable state of `subscribe_loop` (src/gossip.rs, lines 28-29):
the peer directory `names` and the ownership table `message_owners`. -/
structure TrackerState where
  names : List (Nat × List Nat)
  message_owners : List (Nat × Nat)
deriving DecidableEq, Repr

/-- Modelled from the spec: `EndpointId::fmt_short`, the short rendering
of a raw peer identifier used when the peer was never announced. The
external crate's exact rendering is irrelevant to every claim; only that
some fallback name is produced. -/
def fmt_short (p : Nat) : List Nat := ascii (toString p)

/-- Display name resolution of src/gossip.rs, lines 61-64: directory
lookup with fallback to the short id rendering. -/
def displayName (names : List (Nat × List Nat)) (p : Nat) : List Nat :=
  (mapGet names p).getD (fmt_short p)

/-- The system notice emitted on a failed decryption (src/gossip.rs,
lines 78-84). -/
def decryptFailNotice (name e : List Nat) : List Nat :=
  ascii "Failed to decrypt message from " ++ name ++ ascii ": " ++ e

/-- One iteration of the `match message.body` dispatch in `subscribe_loop`
(src/gossip.rs, lines 37-101): returns the updated tracker state and the
list of `UiMessage` events sent to the UI channel, in order. -/
def trackerStep (my_id : Nat) (topic : List Nat) (st : TrackerState)
    (body : MessageBody) : TrackerState × List UiMessage :=
  match body with
  | MessageBody.aboutMe from_ name =>
    ({ st with names := mapInsert st.names from_ name },
     if from_ != my_id
     then [UiMessage.system (name ++ ascii " joined the chat")]
     else [])
  | MessageBody.encryptedMessage from_ id ciphertext nonce =>
    let st' := { st with message_owners := mapInsert st.message_owners id from_ }
    if from_ == my_id then (st', [])
    else
      let name := displayName st.names from_
      match decrypt_message ciphertext nonce topic with
      | Except.ok text =>
        (st', [UiMessage.chat
          { id := id, sender := name, content := text, encrypted := true }])
      | Except.error e =>
        (st', [UiMessage.system (decryptFailNotice name e)])
  | MessageBody.deleteMessage from_ id =>
    let authorised := ((mapGet st.message_owners id).map
      (fun owner => owner == from_)).getD false
    if authorised then
      ({ st with message_owners := mapRemove st.message_owners id },
       [UiMessage.delete id])
    else (st, [])

/-- Processing a sequence of bodies, threading the tracker state. -/
def trackerRun (my_id : Nat) (topic : List Nat) (st : TrackerState)
    (bodies : List MessageBody) : TrackerState :=
  bodies.foldl (fun s b => (trackerStep my_id topic s b).1) st

-- ── src/protocol.rs: join ticket ──────────────────────────────────────────────

/-- Model of `Ticket` (src/protocol.rs, lines 59-63): a topic id plus an
ordered list of bootstrap peer addresses. `TopicId` and `EndpointAddr`
are opaque here; both are modelled by their serialized bytes. -/
structure Ticket where
  topic : List Nat
  endpoints : List (List Nat)
deriving DecidableEq, Repr

/-- Unsigned LEB128 encoding of a natural number (7-bit groups, low
first, continuation bit on all but the last byte). -/
def lebEncode (n : Nat) : List Nat :=
  if n < 128 then [n]
  else (n % 128 + 128) :: lebEncode (n / 128)
termination_by n
decreasing_by
  simp only [not_lt] at *
  omega

/-- Unsigned LEB128 decoding; returns the value and the remaining bytes. -/
def lebDecode : List Nat → Option (Nat × List Nat)
  | [] => none
  | b :: r =>
    if b < 128 then some (b, r)
    else
      match lebDecode r with
      | some (n, rest) => some (b - 128 + 128 * n, rest)
      | none => none

/-- Modelled from the spec: the field serialization step of
`Ticket::to_bytes` ("serialize fields"). The source delegates to
`serde_json` whose byte layout for the external `TopicId` and
`EndpointAddr` types is not part of this repository; any deterministic,
losslessly invertible layout realizes the contract, so a length-prefixed
layout is used. A length-prefixed byte string. -/
def serBytes (l : List Nat) : List Nat := lebEncode l.length ++ l

/-- Modelled from the spec: serialization of a whole `Ticket`
("serialize fields"): the topic bytes, then the endpoint count, then each
endpoint, all length-prefixed. -/
def serTicket (t : Ticket) : List Nat :=
  serBytes t.topic ++ lebEncode t.endpoints.length ++ t.endpoints.flatMap serBytes

/-- Inverse of `serBytes`: read a length then that many bytes. -/
def deBytes (l : List Nat) : Option (List Nat × List Nat) :=
  match lebDecode l with
  | some (n, r) => if n ≤ r.length then some (r.take n, r.drop n) else none
  | none => none

/-- Read `k` length-prefixed byte strings. -/
def deListBytes : Nat → List Nat → Option (List (List Nat) × List Nat)
  | 0, l => some ([], l)
  | k + 1, l =>
    match deBytes l with
    | some (x, r) =>
      match deListBytes k r with
      | some (xs, r2) => some (x :: xs, r2)
      | none => none
    | none => none

/-- Modelled from the spec: the deserialization step of
`Ticket::from_bytes` ("deserialize; fails on malformed payload"),
inverting `serTicket`. -/
def deTicket (l : List Nat) : Option Ticket :=
  match deBytes l with
  | some (topic, r) =>
    match lebDecode r with
    | some (k, r2) =>
      match deListBytes k r2 with
      | some (eps, rest) =>
        if rest = [] then some { topic := topic, endpoints := eps } else none
      | none => none
    | none => none
  | none => none

-- ── Unpadded base-32 (RFC 4648, `data_encoding::BASE32_NOPAD`) ────────────────

/-- Bit `i` (MSB-first across the byte stream) of a byte list; reads past
the end yield 0, which is exactly the zero padding of the final quantum. -/
def b32bit (bytes : List Nat) (i : Nat) : Nat :=
  ((bytes.getD (i / 8) 0) >>> (7 - (i % 8))) % 2

/-- The 5-bit symbols of the unpadded base-32 encoding of a byte list:
ceil(8n/5) symbols, each packing five consecutive bits. -/
def b32symbols (bytes : List Nat) : List Nat :=
  (List.range ((8 * bytes.length + 4) / 5)).map (fun j =>
    16 * b32bit bytes (5 * j) + 8 * b32bit bytes (5 * j + 1) +
    4 * b32bit bytes (5 * j + 2) + 2 * b32bit bytes (5 * j + 3) +
    b32bit bytes (5 * j + 4))

/-- Bit `i` (MSB-first) of a 5-bit symbol list. -/
def symBit (syms : List Nat) (i : Nat) : Nat :=
  ((syms.getD (i / 5) 0) >>> (4 - (i % 5))) % 2

/-- The bytes reassembled from a symbol list: floor(5m/8) bytes, each
packing eight consecutive bits. -/
def b32bytesOf (syms : List Nat) : List Nat :=
  (List.range (5 * syms.length / 8)).map (fun i =>
    128 * symBit syms (8 * i) + 64 * symBit syms (8 * i + 1) +
    32 * symBit syms (8 * i + 2) + 16 * symBit syms (8 * i + 3) +
    8 * symBit syms (8 * i + 4) + 4 * symBit syms (8 * i + 5) +
    2 * symBit syms (8 * i + 6) + symBit syms (8 * i + 7))

/-- The RFC 4648 base-32 alphabet used by `data_encoding::BASE32_NOPAD`. -/
def b32alphabet : List Nat := ascii "ABCDEFGHIJKLMNOPQRSTUVWXYZ234567"

/-- Symbol to (uppercase) alphabet character. -/
def symToChar (s : Nat) : Nat := b32alphabet.getD s 0

/-- ASCII lowercasing of one byte, as `str::make_ascii_lowercase`. -/
def toLowerByte (c : Nat) : Nat := if 65 ≤ c ∧ c ≤ 90 then c + 32 else c

/-- ASCII uppercasing of one byte, as `str::to_ascii_uppercase`. -/
def toUpperByte (c : Nat) : Nat := if 97 ≤ c ∧ c ≤ 122 then c - 32 else c

/-- Character to symbol; `none` on a byte outside the alphabet. -/
def charToSym (c : Nat) : Option Nat :=
  b32alphabet.findIdx? (fun x => x == c)

/-- Model of `Ticket`'s `Display` (src/protocol.rs, lines 75-81):
`BASE32_NOPAD.encode` followed by `make_ascii_lowercase`. -/
def b32encode (bytes : List Nat) : List Nat :=
  (b32symbols bytes).map (fun s => toLowerByte (symToChar s))

/-- Strict unpadded base-32 decoding as performed by
`data_encoding::BASE32_NOPAD.decode`: reject bytes outside the alphabet,
symbol counts that no byte string produces (1, 3 or 6 mod 8), and
non-zero trailing bits. -/
def b32decode (chars : List Nat) : Option (List Nat) :=
  match (chars.map toUpperByte).mapM charToSym with
  | none => none
  | some syms =>
    if syms.length % 8 == 1 || syms.length % 8 == 3 || syms.length % 8 == 6
    then none
    else if (List.range (5 * syms.length)).all (fun i =>
        decide (i < 8 * (5 * syms.length / 8)) || (symBit syms i == 0))
    then some (b32bytesOf syms)
    else none

/-- Model of `Ticket`'s `Display` composed with the field serialization:
the shareable lowercase text token. -/
def ticketEncode (t : Ticket) : List Nat := b32encode (serTicket t)

/-- Model of `Ticket::from_str` (src/protocol.rs, lines 83-89):
uppercase-normalize, base-32 decode, then deserialize. -/
def ticketDecode (s : List Nat) : Option Ticket :=
  (b32decode s).bind deTicket

-- ── Helper lemmas (shared) ────────────────────────────────────────────────────

/-- A non-delete event is appended and then the history is trimmed exactly
when the bound is exceeded. -/
theorem add_message_nonDelete_messages (s : App) (e : UiMessage)
    (he : e.isDelete = false) :
    (s.add_message e).messages
      = if (s.messages ++ [e]).length > 1000
        then (s.messages ++ [e]).drop 100 else s.messages ++ [e] := by
  cases e with
  | delete id => simp [UiMessage.isDelete] at he
  | chat c => rfl
  | system t => rfl

/-- A non-delete insertion preserves the 1000-entry bound. -/
theorem add_message_length_le (s : App) (e : UiMessage)
    (he : e.isDelete = false) (hs : s.messages.length ≤ 1000) :
    (s.add_message e).messages.length ≤ 1000 := by
  rw [add_message_nonDelete_messages s e he]
  split
  · simp only [List.length_drop, List.length_append, List.length_singleton]
    omega
  · rename_i hle
    simp only [List.length_append, List.length_singleton] at *
    omega

/-- The bound is preserved by any sequence of non-delete insertions. -/
theorem addAll_length_le (evs : List UiMessage)
    (h : ∀ e ∈ evs, e.isDelete = false) :
    ∀ s : App, s.messages.length ≤ 1000 →
      (s.addAll evs).messages.length ≤ 1000 := by
  induction evs with
  | nil => intro s hs; simpa [App.addAll] using hs
  | cons e l ih =>
    intro s hs
    have h1 : (s.add_message e).messages.length ≤ 1000 :=
      add_message_length_le s e (h e (List.mem_cons_self _ _)) hs
    have h2 := ih (fun x hx => h x (List.mem_cons_of_mem _ hx)) (s.add_message e) h1
    simpa [App.addAll] using h2

-- ── C3 ────────────────────────────────────────────────────────────────────────

/-- C3: inserting 1001 non-delete events sequentially into an initially
empty history leaves the length at most 1000 at every point, and whenever
an insertion makes the length exceed 1000 (old length exactly 1000),
precisely the 100 oldest entries are dropped in one batch, so the length
becomes 901 immediately. -/
theorem history_bound_1001 (evs : List UiMessage) (hlen : evs.length = 1001)
    (hnd : ∀ e ∈ evs, e.isDelete = false) :
    (∀ k, (App.new.addAll (evs.take k)).messages.length ≤ 1000) ∧
    (∀ s : App, ∀ e : UiMessage, e.isDelete = false →
      s.messages.length = 1000 →
      (s.add_message e).messages = s.messages.drop 100 ++ [e] ∧
      (s.add_message e).messages.length = 901) := by
  constructor
  · intro k
    exact addAll_length_le (evs.take k)
      (fun e he => hnd e (List.mem_of_mem_take he)) App.new (by simp [App.new])
  · intro s e he hs
    have h1 : (s.add_message e).messages = (s.messages ++ [e]).drop 100 := by
      rw [add_message_nonDelete_messages s e he, if_pos]
      simp [List.length_append, hs]
    constructor
    · rw [h1, List.drop_append_eq_append_drop]
      simp [hs]
    · rw [h1]
      simp [List.length_drop, List.length_append, hs]

/-- C3 witness: a concrete 1001-event run respects the bound, and a
concrete insertion at the bound trims to 901. -/
theorem history_bound_1001_witness :
    (App.new.addAll ((List.replicate 1001 (UiMessage.system [])).take 600)).messages.length ≤ 1000 ∧
    ({ App.new with
        messages := List.replicate 1000 (UiMessage.system []) }.add_message
        (UiMessage.system [1])).messages.length = 901 := by
  have h := history_bound_1001 (List.replicate 1001 (UiMessage.system []))
    (by simp)
    (by
      intro e he
      rw [List.eq_of_mem_replicate he]
      rfl)
  exact ⟨h.1 600,
    (h.2 { App.new with messages := List.replicate 1000 (UiMessage.system []) }
      (UiMessage.system [1]) rfl (by simp)).2⟩

-- ── C6 ────────────────────────────────────────────────────────────────────────

/-- C6 counterexample: the claim that scroll_down(100) from any offset
yields 0 is false — from offset 150 it yields 50. -/
theorem scroll_down_any_offset_false :
    (App.scroll_down { App.new with scroll_offset := 150 } 100).scroll_offset ≠ 0 := by
  decide

/-- C6 (amended): scroll_up clamps to length - 1 (0 on an empty history,
with no underflow), scroll_down saturates at 0; from offset 0 with 5
messages scroll_up(10) yields 4; scroll_down(100) from any offset at most
100 yields 0; scroll_up(1) on an empty history yields 0. -/
theorem scroll_clamping (s : App) (n : Nat) :
    (s.scroll_up n).scroll_offset
      = min (s.scroll_offset + n) (s.messages.length - 1) ∧
    (s.scroll_down n).scroll_offset = s.scroll_offset - n ∧
    (s.scroll_offset = 0 → s.messages.length = 5 →
      (s.scroll_up 10).scroll_offset = 4) ∧
    (s.scroll_offset ≤ 100 → (s.scroll_down 100).scroll_offset = 0) ∧
    (s.messages = [] → (s.scroll_up 1).scroll_offset = 0) := by
  refine ⟨rfl, rfl, ?_, ?_, ?_⟩
  · intro h0 h5
    simp [App.scroll_up, h0, h5]
  · intro h
    simp only [App.scroll_down]
    omega
  · intro h
    simp [App.scroll_up, h]

/-- C6 witness: the clamping facts at concrete states. -/
theorem scroll_clamping_witness :
    (App.scroll_up
      { App.new with messages := List.replicate 5 (UiMessage.system []) }
      10).scroll_offset = 4 ∧
    (App.scroll_down { App.new with scroll_offset := 100 } 100).scroll_offset = 0 ∧
    (App.scroll_up App.new 1).scroll_offset = 0 := by
  refine ⟨?_, ?_, ?_⟩
  · exact (scroll_clamping
      { App.new with messages := List.replicate 5 (UiMessage.system []) }
      10).2.2.1 rfl (by simp)
  · exact (scroll_clamping { App.new with scroll_offset := 100 } 100).2.2.2.1
      (by decide)
  · exact (scroll_clamping App.new 1).2.2.2.2 rfl

-- ── C7 ────────────────────────────────────────────────────────────────────────

/-- C7: a Delete(id) event removes exactly the Chat entries with that id
(preserving the order of everything else), drops id from the sent-id
queue, appends the single deletion notice, and mutates nothing else; in
particular no trimming happens on this path. -/
theorem delete_event_exact_effect (s : App) (id : Nat) :
    (s.add_message (UiMessage.delete id)).messages
      = s.messages.filter (keepAfterDelete id)
        ++ [UiMessage.system (ascii "A message was deleted.")] ∧
    (∀ c : ChatMessage,
      UiMessage.chat c ∈ (s.add_message (UiMessage.delete id)).messages
        ↔ (UiMessage.chat c ∈ s.messages ∧ c.id ≠ id)) ∧
    (s.add_message (UiMessage.delete id)).my_sent_ids
      = s.my_sent_ids.filter (fun i => i != id) ∧
    (s.add_message (UiMessage.delete id)).input = s.input ∧
    (s.add_message (UiMessage.delete id)).mode = s.mode ∧
    (s.add_message (UiMessage.delete id)).scroll_offset = s.scroll_offset := by
  refine ⟨rfl, ?_, rfl, rfl, rfl, rfl⟩
  intro c
  show UiMessage.chat c ∈ s.messages.filter (keepAfterDelete id) ++ _ ↔ _
  simp [List.mem_filter, keepAfterDelete]

-- ── C9 ────────────────────────────────────────────────────────────────────────

/-- C9: applying Delete(id) to a history of length exactly 1000 that
contains no Chat entry with that id still appends the deletion notice and
performs no trimming, leaving the length at 1001 — the delete path can
push the history past the 1000 bound. -/
theorem delete_notice_exceeds_bound (s : App) (id : Nat)
    (hlen : s.messages.length = 1000)
    (hnochat : ∀ c : ChatMessage, UiMessage.chat c ∈ s.messages → c.id ≠ id) :
    (s.add_message (UiMessage.delete id)).messages
      = s.messages ++ [UiMessage.system (ascii "A message was deleted.")] ∧
    (s.add_message (UiMessage.delete id)).messages.length = 1001 := by
  have hf : s.messages.filter (keepAfterDelete id) = s.messages := by
    rw [List.filter_eq_self]
    intro m hm
    cases m with
    | chat c => simpa [keepAfterDelete] using hnochat c hm
    | system t => rfl
    | delete d => rfl
  have h1 : (s.add_message (UiMessage.delete id)).messages
      = s.messages ++ [UiMessage.system (ascii "A message was deleted.")] := by
    show s.messages.filter (keepAfterDelete id) ++ _ = _
    rw [hf]
  exact ⟨h1, by rw [h1]; simp [hlen]⟩

/-- C9 witness: a concrete full history of 1000 system notices grows to
1001 under an unmatched delete. -/
theorem delete_notice_exceeds_bound_witness :
    ({ App.new with
        messages := List.replicate 1000 (UiMessage.system []) }.add_message
        (UiMessage.delete 5)).messages.length = 1001 := by
  refine (delete_notice_exceeds_bound
    { App.new with messages := List.replicate 1000 (UiMessage.system []) } 5
    (by simp) ?_).2
  intro c hc
  have h2 := List.eq_of_mem_replicate hc
  simp at h2

-- ── C10 ───────────────────────────────────────────────────────────────────────

/-- C10: add_message never touches the input buffer, the mode, or the
scroll offset, and touches the sent-id queue only on a Delete event. -/
theorem add_message_preserves_ui_fields (s : App) (msg : UiMessage) :
    (s.add_message msg).input = s.input ∧
    (s.add_message msg).mode = s.mode ∧
    (s.add_message msg).scroll_offset = s.scroll_offset ∧
    (msg.isDelete = false → (s.add_message msg).my_sent_ids = s.my_sent_ids) := by
  cases msg <;> simp [App.add_message, UiMessage.isDelete]

/-- C10 witness: the frame conditions at a concrete state and event. -/
theorem add_message_preserves_ui_fields_witness :
    (App.new.add_message (UiMessage.system [])).my_sent_ids
      = App.new.my_sent_ids ∧
    (App.new.add_message (UiMessage.system [])).input = App.new.input :=
  ⟨(add_message_preserves_ui_fields App.new (UiMessage.system [])).2.2.2 rfl,
   (add_message_preserves_ui_fields App.new (UiMessage.system [])).1⟩

-- ── C1 ────────────────────────────────────────────────────────────────────────

/-- C1: a DeleteRequest is authorized iff the ownership table records
exactly the requesting peer for that id; if so the entry is removed and a
single Delete event is emitted; otherwise nothing is emitted and neither
table changes. -/
theorem delete_request_authorization (my_id : Nat) (topic : List Nat)
    (st : TrackerState) (from_ id : Nat) :
    (mapGet st.message_owners id = some from_ →
      trackerStep my_id topic st (MessageBody.deleteMessage from_ id)
        = ({ st with message_owners := mapRemove st.message_owners id },
           [UiMessage.delete id])) ∧
    (mapGet st.message_owners id ≠ some from_ →
      trackerStep my_id topic st (MessageBody.deleteMessage from_ id)
        = (st, [])) := by
  constructor
  · intro h
    simp [trackerStep, h]
  · intro h
    cases hm : mapGet st.message_owners id with
    | none => simp [trackerStep, hm]
    | some o =>
      have hne : (o == from_) = false := by
        simp only [beq_eq_false_iff_ne]
        rintro rfl
        exact h hm
      simp [trackerStep, hm, hne]

/-- C1 witness: with ownership table mapping 42 to peer 7, peer 7's delete
of 42 is honoured and peer 8's is dropped with no state change. -/
theorem delete_request_authorization_witness :
    trackerStep 0 [] { names := [], message_owners := [(42, 7)] }
        (MessageBody.deleteMessage 7 42)
      = ({ names := [], message_owners := mapRemove [(42, 7)] 42 },
         [UiMessage.delete 42]) ∧
    trackerStep 0 [] { names := [], message_owners := [(42, 7)] }
        (MessageBody.deleteMessage 8 42)
      = ({ names := [], message_owners := [(42, 7)] }, []) :=
  ⟨(delete_request_authorization 0 [] { names := [], message_owners := [(42, 7)] }
      7 42).1 (by decide),
   (delete_request_authorization 0 [] { names := [], message_owners := [(42, 7)] }
      8 42).2 (by decide)⟩

-- ── C2 ────────────────────────────────────────────────────────────────────────

/-- The state update of the EncryptedMessage branch is the same in every
sub-case: record/overwrite the ownership entry. -/
theorem trackerStep_encrypted_state (my_id : Nat) (topic : List Nat)
    (st : TrackerState) (from_ id : Nat) (ct nonce : List Nat) :
    (trackerStep my_id topic st
        (MessageBody.encryptedMessage from_ id ct nonce)).1
      = { st with message_owners := mapInsert st.message_owners id from_ } := by
  cases hdec : decrypt_message ct nonce topic <;>
    by_cases hf : (from_ == my_id) = true <;>
      simp [trackerStep, hdec, hf]

/-- C2: every observed EncryptedChat unconditionally overwrites the
ownership entry for its message id — after observing the id from peer X
and then from peer Y, the recorded owner is Y, from any starting state. -/
theorem ownership_last_write_wins (my_id : Nat) (topic : List Nat)
    (st : TrackerState) (pX pY id : Nat) (ct1 n1 ct2 n2 : List Nat) :
    mapGet (trackerStep my_id topic
        (trackerStep my_id topic st
          (MessageBody.encryptedMessage pX id ct1 n1)).1
        (MessageBody.encryptedMessage pY id ct2 n2)).1.message_owners id
      = some pY := by
  rw [trackerStep_encrypted_state, trackerStep_encrypted_state]
  simp [mapGet, mapInsert]

-- ── C8 ────────────────────────────────────────────────────────────────────────

/-- C8: an EncryptedChat always records ownership and leaves the peer
directory alone; if it is our own it emits nothing; from another peer a
successful decryption emits exactly one Chat event and a failed one emits
exactly one System notice naming the sender (the step is a total
function, so the tracker continues either way). -/
theorem encrypted_chat_emission (my_id : Nat) (topic : List Nat)
    (st : TrackerState) (from_ id : Nat) (ct nonce : List Nat) :
    (trackerStep my_id topic st
        (MessageBody.encryptedMessage from_ id ct nonce)).1
      = { st with message_owners := mapInsert st.message_owners id from_ } ∧
    (from_ = my_id →
      (trackerStep my_id topic st
        (MessageBody.encryptedMessage from_ id ct nonce)).2 = []) ∧
    (from_ ≠ my_id → ∀ text, decrypt_message ct nonce topic = Except.ok text →
      (trackerStep my_id topic st
        (MessageBody.encryptedMessage from_ id ct nonce)).2
        = [UiMessage.chat { id := id, sender := displayName st.names from_, content := text, encrypted := true }]) ∧
    (from_ ≠ my_id → ∀ e, decrypt_message ct nonce topic = Except.error e →
      (trackerStep my_id topic st
        (MessageBody.encryptedMessage from_ id ct nonce)).2
        = [UiMessage.system (decryptFailNotice (displayName st.names from_) e)]) := by
  refine ⟨trackerStep_encrypted_state my_id topic st from_ id ct nonce, ?_, ?_, ?_⟩
  · intro h
    subst h
    simp [trackerStep]
  · intro h text hdec
    have hf : (from_ == my_id) = false := by simpa using h
    simp [trackerStep, hf, hdec]
  · intro h e hdec
    have hf : (from_ == my_id) = false := by simpa using h
    simp [trackerStep, hf, hdec]

-- ── C4 (and the decryption fact for the C8 witness) ───────────────────────────

/-- The keystream has exactly the requested length. -/
theorem chachaKeystream_length (key nonce : List Nat) (len : Nat) :
    (chachaKeystream key nonce len).length = len := by
  simp [chachaKeystream]

/-- Xoring twice with the same keystream is the identity. -/
theorem zipWith_xorN_cancel (pt : List Nat) :
    ∀ ks : List Nat, ks.length = pt.length →
      List.zipWith xorN (List.zipWith xorN pt ks) ks = pt := by
  induction pt with
  | nil => intro ks h; simp
  | cons p l ih =>
    intro ks h
    cases ks with
    | nil => simp at h
    | cons k m =>
      simp only [List.zipWith_cons_cons]
      rw [ih m (by simpa using h)]
      simp [xorN, Nat.xor_cancel_right]

/-- The Poly1305 tag is 16 bytes. -/
theorem aeadTag_length (key nonce ct : List Nat) :
    (aeadTag key nonce ct).length = 16 := by
  simp [aeadTag, poly1305, leBytes]

/-- AEAD decryption inverts AEAD encryption under the same key and nonce. -/
theorem aeadDecrypt_aeadEncrypt (key nonce pt : List Nat) :
    aeadDecrypt key nonce (aeadEncrypt key nonce pt) = some pt := by
  have hct : (List.zipWith xorN pt (chachaKeystream key nonce pt.length)).length
      = pt.length := by
    simp [List.length_zipWith, chachaKeystream_length]
  unfold aeadEncrypt aeadDecrypt
  have hlen : (List.zipWith xorN pt (chachaKeystream key nonce pt.length)
      ++ aeadTag key nonce
          (List.zipWith xorN pt (chachaKeystream key nonce pt.length))).length
      = pt.length + 16 := by
    simp [List.length_append, hct, aeadTag_length]
  rw [hlen, if_neg (by omega), Nat.add_sub_cancel,
    List.take_left' hct, List.drop_left' hct, if_pos rfl, hct]
  rw [zipWith_xorN_cancel pt _ (chachaKeystream_length key nonce pt.length)]

/-- Decrypting what `encrypt_message` produced recovers the text, for any
valid-UTF-8 plaintext. -/
theorem decrypt_encrypt_core (topic nonce12 text : List Nat)
    (h : utf8Valid text = true) :
    decrypt_message (aeadEncrypt (get_encryption_key topic) nonce12 text)
        nonce12 topic
      = Except.ok text := by
  unfold decrypt_message
  rw [aeadDecrypt_aeadEncrypt]
  simp [h]

/-- C4: for every topic and UTF-8 text, the ciphertext/nonce pair
produced by `encrypt_message` decrypts back to exactly the original text. -/
theorem encrypt_then_decrypt (topic text : List Nat) (from_ id : Nat)
    (nonce12 outer : List Nat) (h : utf8Valid text = true) :
    (encrypt_message text from_ topic id nonce12 outer).body
      = MessageBody.encryptedMessage from_ id
          (aeadEncrypt (get_encryption_key topic) nonce12 text) nonce12 ∧
    decrypt_message (aeadEncrypt (get_encryption_key topic) nonce12 text)
        nonce12 topic
      = Except.ok text :=
  ⟨rfl, decrypt_encrypt_core topic nonce12 text h⟩

/-- C4 witness: round trip at a concrete topic, nonce and text. -/
theorem encrypt_then_decrypt_witness :
    decrypt_message
        (aeadEncrypt (get_encryption_key [1, 2, 3])
          [0, 0, 0, 0, 0, 0, 0, 0, 0, 0, 0, 0] [104, 105])
        [0, 0, 0, 0, 0, 0, 0, 0, 0, 0, 0, 0] [1, 2, 3]
      = Except.ok [104, 105] :=
  (encrypt_then_decrypt [1, 2, 3] [104, 105] 2 7
    [0, 0, 0, 0, 0, 0, 0, 0, 0, 0, 0, 0] [] (by decide)).2

/-- C8 witness: concrete instances of all three emission branches — our
own message emits nothing, a well-formed foreign message emits one Chat
event, an undecryptable foreign message emits one System notice. -/
theorem encrypted_chat_emission_witness :
    (trackerStep 1 [1, 2, 3] { names := [], message_owners := [] }
        (MessageBody.encryptedMessage 1 7 [] [0])).2 = [] ∧
    (trackerStep 1 [1, 2, 3] { names := [], message_owners := [] }
        (MessageBody.encryptedMessage 2 7
          (aeadEncrypt (get_encryption_key [1, 2, 3])
            [0, 0, 0, 0, 0, 0, 0, 0, 0, 0, 0, 0] [104, 105])
          [0, 0, 0, 0, 0, 0, 0, 0, 0, 0, 0, 0])).2
      = [UiMessage.chat { id := 7, sender := displayName [] 2, content := [104, 105], encrypted := true }] ∧
    (trackerStep 1 [1, 2, 3] { names := [], message_owners := [] }
        (MessageBody.encryptedMessage 2 7 [] [0])).2
      = [UiMessage.system (decryptFailNotice (displayName [] 2)
          (ascii "Decryption failed: aead::Error"))] := by
  refine ⟨?_, ?_, ?_⟩
  · exact (encrypted_chat_emission 1 [1, 2, 3]
      { names := [], message_owners := [] } 1 7 [] [0]).2.1 rfl
  · exact (encrypted_chat_emission 1 [1, 2, 3]
      { names := [], message_owners := [] } 2 7
      (aeadEncrypt (get_encryption_key [1, 2, 3])
        [0, 0, 0, 0, 0, 0, 0, 0, 0, 0, 0, 0] [104, 105])
      [0, 0, 0, 0, 0, 0, 0, 0, 0, 0, 0, 0]).2.2.1 (by decide) [104, 105]
      (decrypt_encrypt_core [1, 2, 3] [0, 0, 0, 0, 0, 0, 0, 0, 0, 0, 0, 0]
        [104, 105] (by decide))
  · exact (encrypted_chat_emission 1 [1, 2, 3]
      { names := [], message_owners := [] } 2 7 [] [0]).2.2.2 (by decide)
      (ascii "Decryption failed: aead::Error") rfl

-- ── C5: serialization round trip ──────────────────────────────────────────────

/-- Every byte of a LEB128 encoding is below 256. -/
theorem lebEncode_lt (n : Nat) : ∀ b ∈ lebEncode n, b < 256 := by
  induction n using Nat.strong_induction_on with
  | _ n ih =>
    rw [lebEncode]
    split
    · intro b hb
      rename_i hlt
      simp only [List.mem_singleton] at hb
      omega
    · intro b hb
      rename_i hge
      rcases List.mem_cons.mp hb with hb1 | hb2
      · omega
      · exact ih (n / 128) (by omega) b hb2

/-- LEB128 decoding inverts LEB128 encoding, leaving the rest intact. -/
theorem lebDecode_lebEncode (n : Nat) :
    ∀ rest : List Nat, lebDecode (lebEncode n ++ rest) = some (n, rest) := by
  induction n using Nat.strong_induction_on with
  | _ n ih =>
    intro rest
    rw [lebEncode]
    split
    · rename_i hlt
      simp [lebDecode, hlt]
    · rename_i hge
      simp only [List.cons_append, lebDecode, List.append_eq]
      rw [if_neg (by omega), ih (n / 128) (by omega) rest]
      simp only [Option.some.injEq, Prod.mk.injEq]
      constructor
      · omega
      · trivial

/-- Reading a length-prefixed byte string inverts writing one. -/
theorem deBytes_serBytes (x rest : List Nat) :
    deBytes (serBytes x ++ rest) = some (x, rest) := by
  unfold serBytes deBytes
  rw [List.append_assoc, lebDecode_lebEncode]
  simp only
  rw [if_pos (by simp), List.take_left' rfl, List.drop_left' rfl]

/-- Reading back a written list of length-prefixed byte strings. -/
theorem deListBytes_flatMap (eps : List (List Nat)) (rest : List Nat) :
    deListBytes eps.length (eps.flatMap serBytes ++ rest) = some (eps, rest) := by
  induction eps with
  | nil => simp [deListBytes]
  | cons e l ih =>
    simp only [List.length_cons, List.flatMap_cons, List.append_assoc, deListBytes]
    rw [deBytes_serBytes]
    simp only [ih]

/-- Deserializing a serialized ticket yields the ticket back. -/
theorem deTicket_serTicket (t : Ticket) : deTicket (serTicket t) = some t := by
  unfold serTicket deTicket
  rw [List.append_assoc, deBytes_serBytes]
  simp only
  rw [← List.append_nil (lebEncode t.endpoints.length ++ t.endpoints.flatMap serBytes),
    List.append_assoc, lebDecode_lebEncode]
  simp only
  rw [List.append_nil, ← List.append_nil (t.endpoints.flatMap serBytes),
    deListBytes_flatMap]
  simp

-- ── C5: base-32 round trip ────────────────────────────────────────────────────

/-- Indexing into a tabulated list, in range. -/
theorem range_map_getD (n : Nat) (f : Nat → Nat) (i : Nat) (h : i < n) :
    ((List.range n).map f).getD i 0 = f i := by
  have hlen : i < ((List.range n).map f).length := by simpa using h
  rw [List.getD_eq_getElem _ _ hlen]
  simp

/-- Every bit is 0 or 1. -/
theorem b32bit_le (bytes : List Nat) (i : Nat) : b32bit bytes i ≤ 1 := by
  unfold b32bit
  omega

/-- Bits past the end of the byte stream are 0 (the padding of the final
quantum). -/
theorem b32bit_zero_of_ge (bytes : List Nat) (i : Nat)
    (h : 8 * bytes.length ≤ i) : b32bit bytes i = 0 := by
  unfold b32bit
  rw [List.getD_eq_default _ _ (by omega : bytes.length ≤ i / 8)]
  simp

/-- Every base-32 symbol is below 32. -/
theorem b32symbols_lt (bytes : List Nat) : ∀ s ∈ b32symbols bytes, s < 32 := by
  intro s hs
  simp only [b32symbols, List.mem_map, List.mem_range] at hs
  obtain ⟨j, hj, rfl⟩ := hs
  have h0 := b32bit_le bytes (5 * j)
  have h1 := b32bit_le bytes (5 * j + 1)
  have h2 := b32bit_le bytes (5 * j + 2)
  have h3 := b32bit_le bytes (5 * j + 3)
  have h4 := b32bit_le bytes (5 * j + 4)
  omega

/-- Reading bit `i` back out of the packed symbols gives bit `i` of the
original byte stream. -/
theorem symBit_b32symbols (bytes : List Nat) (i : Nat)
    (hi : i < 5 * ((8 * bytes.length + 4) / 5)) :
    symBit (b32symbols bytes) i = b32bit bytes i := by
  obtain ⟨q, r, hr, rfl⟩ : ∃ q r, r < 5 ∧ i = 5 * q + r :=
    ⟨i / 5, i % 5, Nat.mod_lt _ (by norm_num), by omega⟩
  unfold symBit
  have hq : (5 * q + r) / 5 = q := by omega
  have hrm : (5 * q + r) % 5 = r := by omega
  rw [hq, hrm]
  unfold b32symbols
  rw [range_map_getD _ _ q (by omega)]
  have h0 := b32bit_le bytes (5 * q)
  have h1 := b32bit_le bytes (5 * q + 1)
  have h2 := b32bit_le bytes (5 * q + 2)
  have h3 := b32bit_le bytes (5 * q + 3)
  have h4 := b32bit_le bytes (5 * q + 4)
  interval_cases r <;>
    · simp only [Nat.shiftRight_eq_div_pow]
      norm_num
      omega

/-- Reassembling eight consecutive bits recovers the byte. -/
theorem byte_from_bits (bytes : List Nat) (hb : ∀ b ∈ bytes, b < 256)
    (i : Nat) (hi : i < bytes.length) :
    128 * b32bit bytes (8 * i) + 64 * b32bit bytes (8 * i + 1) +
    32 * b32bit bytes (8 * i + 2) + 16 * b32bit bytes (8 * i + 3) +
    8 * b32bit bytes (8 * i + 4) + 4 * b32bit bytes (8 * i + 5) +
    2 * b32bit bytes (8 * i + 6) + b32bit bytes (8 * i + 7)
      = bytes.getD i 0 := by
  have hbyte : bytes.getD i 0 < 256 := by
    apply hb
    rw [List.getD_eq_getElem _ _ hi]
    exact List.getElem_mem hi
  unfold b32bit
  have d0 : 8 * i / 8 = i := by omega
  have m0 : 8 * i % 8 = 0 := by omega
  have d1 : (8 * i + 1) / 8 = i := by omega
  have m1 : (8 * i + 1) % 8 = 1 := by omega
  have d2 : (8 * i + 2) / 8 = i := by omega
  have m2 : (8 * i + 2) % 8 = 2 := by omega
  have d3 : (8 * i + 3) / 8 = i := by omega
  have m3 : (8 * i + 3) % 8 = 3 := by omega
  have d4 : (8 * i + 4) / 8 = i := by omega
  have m4 : (8 * i + 4) % 8 = 4 := by omega
  have d5 : (8 * i + 5) / 8 = i := by omega
  have m5 : (8 * i + 5) % 8 = 5 := by omega
  have d6 : (8 * i + 6) / 8 = i := by omega
  have m6 : (8 * i + 6) % 8 = 6 := by omega
  have d7 : (8 * i + 7) / 8 = i := by omega
  have m7 : (8 * i + 7) % 8 = 7 := by omega
  rw [d0, m0, d1, m1, d2, m2, d3, m3, d4, m4, d5, m5, d6, m6, d7, m7]
  set B := bytes.getD i 0 with hBdef
  simp only [Nat.shiftRight_eq_div_pow]
  norm_num
  omega

/-- Unpacking the packed symbols yields the original bytes. -/
theorem b32bytesOf_b32symbols (bytes : List Nat)
    (hb : ∀ b ∈ bytes, b < 256) :
    b32bytesOf (b32symbols bytes) = bytes := by
  have hm : (b32symbols bytes).length = (8 * bytes.length + 4) / 5 := by
    simp [b32symbols]
  apply List.ext_getElem
  · simp only [b32bytesOf, List.length_map, List.length_range, hm]
    omega
  · intro i h1 h2
    simp only [b32bytesOf, List.getElem_map, List.getElem_range, hm]
    have hin : i < bytes.length := h2
    have hl0 : 8 * i < 5 * ((8 * bytes.length + 4) / 5) := by omega
    have hl1 : 8 * i + 1 < 5 * ((8 * bytes.length + 4) / 5) := by omega
    have hl2 : 8 * i + 2 < 5 * ((8 * bytes.length + 4) / 5) := by omega
    have hl3 : 8 * i + 3 < 5 * ((8 * bytes.length + 4) / 5) := by omega
    have hl4 : 8 * i + 4 < 5 * ((8 * bytes.length + 4) / 5) := by omega
    have hl5 : 8 * i + 5 < 5 * ((8 * bytes.length + 4) / 5) := by omega
    have hl6 : 8 * i + 6 < 5 * ((8 * bytes.length + 4) / 5) := by omega
    have hl7 : 8 * i + 7 < 5 * ((8 * bytes.length + 4) / 5) := by omega
    rw [symBit_b32symbols bytes (8 * i) hl0,
      symBit_b32symbols bytes (8 * i + 1) hl1,
      symBit_b32symbols bytes (8 * i + 2) hl2,
      symBit_b32symbols bytes (8 * i + 3) hl3,
      symBit_b32symbols bytes (8 * i + 4) hl4,
      symBit_b32symbols bytes (8 * i + 5) hl5,
      symBit_b32symbols bytes (8 * i + 6) hl6,
      symBit_b32symbols bytes (8 * i + 7) hl7,
      byte_from_bits bytes hb i hin, List.getD_eq_getElem _ _ hin]

/-- Lower-casing then upper-casing an alphabet character and looking it up
recovers the symbol, for every 5-bit symbol. -/
theorem charToSym_round :
    ∀ s < 32, charToSym (toUpperByte (toLowerByte (symToChar s))) = some s := by
  decide

/-- Decoding the (case-normalized) encoded characters recovers the symbol
list. -/
theorem mapM_charToSym (syms : List Nat) (h : ∀ s ∈ syms, s < 32) :
    ((syms.map (fun s => toLowerByte (symToChar s))).map toUpperByte).mapM
        charToSym
      = some syms := by
  induction syms with
  | nil => rfl
  | cons s l ih =>
    simp only [List.map_cons, List.mapM_cons]
    rw [charToSym_round s (h s (List.mem_cons_self _ _)),
      ih (fun x hx => h x (List.mem_cons_of_mem _ hx))]
    rfl

/-- Strict unpadded base-32 decoding inverts encoding on byte lists. -/
theorem b32decode_b32encode (bytes : List Nat)
    (hb : ∀ b ∈ bytes, b < 256) :
    b32decode (b32encode bytes) = some bytes := by
  unfold b32encode b32decode
  rw [mapM_charToSym _ (b32symbols_lt bytes)]
  simp only
  have hm : (b32symbols bytes).length = (8 * bytes.length + 4) / 5 := by
    simp [b32symbols]
  have hcond : ((b32symbols bytes).length % 8 == 1
      || (b32symbols bytes).length % 8 == 3
      || (b32symbols bytes).length % 8 == 6) = false := by
    rw [hm]
    simp only [Bool.or_eq_false_iff, beq_eq_false_iff_ne]
    refine ⟨⟨?_, ?_⟩, ?_⟩ <;> omega
  rw [hcond]
  simp only [Bool.false_eq_true, if_false]
  have hall : ((List.range (5 * (b32symbols bytes).length)).all (fun i =>
      decide (i < 8 * (5 * (b32symbols bytes).length / 8))
        || (symBit (b32symbols bytes) i == 0))) = true := by
    rw [List.all_eq_true]
    intro i hi
    rw [List.mem_range] at hi
    by_cases hcase : i < 8 * (5 * (b32symbols bytes).length / 8)
    · simp [hcase]
    · have h8n : 8 * (5 * (b32symbols bytes).length / 8) = 8 * bytes.length := by
        rw [hm]
        omega
      have hge : 8 * bytes.length ≤ i := by omega
      have hz : symBit (b32symbols bytes) i = 0 := by
        rw [symBit_b32symbols bytes i (by rw [← hm]; exact hi),
          b32bit_zero_of_ge bytes i hge]
      simp [hz]
  rw [hall]
  simp only [if_true]
  rw [b32bytesOf_b32symbols bytes hb]

/-- Every byte of a serialized ticket is below 256 when the ticket's own
bytes are. -/
theorem serTicket_lt (t : Ticket) (hb : ∀ b ∈ t.topic, b < 256)
    (he : ∀ ep ∈ t.endpoints, ∀ b ∈ ep, b < 256) :
    ∀ b ∈ serTicket t, b < 256 := by
  intro b hmem
  simp only [serTicket, serBytes, List.mem_append] at hmem
  rcases hmem with ((hl | ht) | hm2) | hm3
  · exact lebEncode_lt _ b hl
  · exact hb b ht
  · exact lebEncode_lt _ b hm2
  · rcases List.mem_flatMap.mp hm3 with ⟨ep, hep, hbep⟩
    rcases List.mem_append.mp hbep with hl | hi
    · exact lebEncode_lt _ b hl
    · exact he ep hep b hi

-- ── C5 ────────────────────────────────────────────────────────────────────────

/-- C5: decoding the encoded text token reproduces any ticket exactly
(the byte-range hypotheses state that topic and addresses are byte
strings, which is forced by their Rust types). -/
theorem ticket_roundtrip (t : Ticket) (hb : ∀ b ∈ t.topic, b < 256)
    (he : ∀ ep ∈ t.endpoints, ∀ b ∈ ep, b < 256) :
    ticketDecode (ticketEncode t) = some t := by
  unfold ticketEncode ticketDecode
  rw [b32decode_b32encode (serTicket t) (serTicket_lt t hb he)]
  simp only [Option.some_bind]
  exact deTicket_serTicket t

/-- C5 witness: round trip of a concrete ticket with two bootstrap
addresses. -/
theorem ticket_roundtrip_witness :
    ticketDecode (ticketEncode { topic := [7, 255], endpoints := [[1], [2, 3]] })
      = some { topic := [7, 255], endpoints := [[1], [2, 3]] } :=
  ticket_roundtrip { topic := [7, 255], endpoints := [[1], [2, 3]] }
    (by decide) (by decide)
